import Mathlib

/-!
Verification of the Borderland shard-manager core against its specification.

The Go sources are shallowly embedded as executable Lean definitions:

* `Borderland.Commonutil`  — pkg/commonutil/pq.go (the priority queue) together
  with the relevant part of Go's `container/heap` package (`up`, `down`,
  `heap.Push`, `heap.Pop`) specialised to this `PriorityQueue`.
* `Borderland.Smserver`    — server/smserver/eq.go (event queue) and the move
  executor `operator.move`.
* `Borderland.ServerPkg`   — the `package server` variant of the event queue.
* `Borderland.Storage`     — the client-side durable-storage interface; this
  package is not part of the given sources, so it is modelled from the spec.
* `Borderland.Core`        — pkg/apputil/core/shardkeeper.go.

Machine integers (`int64`, `clientv3.LeaseID`) are embedded as `Int`; none of
the embedded code performs arithmetic that can overflow (the only operations
are comparisons), so no modular reduction is required.
-/

set_option maxHeartbeats 1000000

namespace Borderland

/-! ## Definitions -/

namespace Commonutil

/-- An `Item` of the priority queue (pkg/commonutil/pq.go): an opaque string
payload, an `int64` priority and the back index maintained by the heap. -/
structure Item where
  value : String
  priority : Int
  index : Int
deriving DecidableEq, Repr

instance : Inhabited Item := ⟨⟨"", 0, 0⟩⟩

/-- A `PriorityQueue` holds items; Go's slice is embedded as a list. -/
abbrev PriorityQueue := List Item

/-- Source `pq.Less(i, j)`: larger priority first, giving a max-heap. -/
def less (pq : PriorityQueue) (i j : Nat) : Bool :=
  pq[i]!.priority > pq[j]!.priority

/-- Helper for the index bookkeeping done by `Swap`, `Push` and `Pop`. -/
def setIndex (it : Item) (n : Int) : Item :=
  { it with index := n }

/-- Source `pq.Swap(i, j)`: a no-op when the queue has at most one element (the
source's guard), otherwise exchange positions `i` and `j` and refresh the
stored indices of the two moved items. -/
def pqSwap (pq : PriorityQueue) (i j : Nat) : PriorityQueue :=
  if pq.length ≤ 1 then pq
  else
    let a := pq[i]!
    let b := pq[j]!
    (pq.set i (setIndex b i)).set j (setIndex a j)

/-- Source `pq.Push(x)`: append, setting the item's index to the old length. -/
def pqPush (pq : PriorityQueue) (x : Item) : PriorityQueue :=
  pq ++ [setIndex x pq.length]

/-- Source `pq.Pop()`: `nil` on an empty queue, otherwise detach the last element
(after setting its index to `-1` "for safety"). -/
def pqPop (pq : PriorityQueue) : Option Item × PriorityQueue :=
  if pq.length = 0 then (none, pq)
  else (some (setIndex pq[pq.length - 1]! (-1)), pq.take (pq.length - 1))

/-! Go's `container/heap` sift loops, specialised to this `PriorityQueue`.
The source loops are `for` loops whose index strictly moves towards the root
resp. past the last parent on every iteration; they are embedded with an
explicit iteration bound (`fuel`) that provably never runs out, and the
loop equations `up_eq` / `down_eq` below restate the source's recurrences
without any mention of the bound. -/
/-- Body of `container/heap.up` with an iteration bound. -/
def upAux (pq : PriorityQueue) : Nat → Nat → PriorityQueue
  | 0, _ => pq
  | fuel + 1, j =>
    if (j - 1) / 2 = j ∨ ¬ less pq j ((j - 1) / 2) then pq
    else upAux (pqSwap pq ((j - 1) / 2) j) fuel ((j - 1) / 2)

/-- Go's `container/heap.up(h, j)`: sift the element at `j` towards the root.
`j + 1` bounds the number of iterations since the index strictly decreases. -/
def up (pq : PriorityQueue) (j : Nat) : PriorityQueue :=
  upAux pq (j + 1) j

/-- The child of `i` selected by `container/heap.down`: the right child when
it exists below the bound `n` and compares `Less` (i.e. has the larger
priority), otherwise the left child. -/
def pickChild (pq : PriorityQueue) (i n : Nat) : Nat :=
  if 2 * i + 2 < n ∧ less pq (2 * i + 2) (2 * i + 1) then 2 * i + 2 else 2 * i + 1

/-- Body of `container/heap.down` with an iteration bound.  The source also
breaks on `j1 < 0` (signed overflow of `2*i+1`), which cannot occur here. -/
def downAux (pq : PriorityQueue) (n : Nat) : Nat → Nat → PriorityQueue
  | 0, _ => pq
  | fuel + 1, i =>
    if 2 * i + 1 ≥ n then pq
    else if ¬ less pq (pickChild pq i n) i then pq
    else downAux (pqSwap pq i (pickChild pq i n)) n fuel (pickChild pq i n)

/-- Go's `container/heap.down(h, i, n)`: sift the element at `i` down, staying
below `n`.  `n - i` bounds the iterations since the index strictly grows. -/
def down (pq : PriorityQueue) (i n : Nat) : PriorityQueue :=
  downAux pq n (n - i) i

/-- Go's `heap.Push(h, x)`: append then sift up from the last position. -/
def heapPush (pq : PriorityQueue) (x : Item) : PriorityQueue :=
  let pq1 := pqPush pq x
  up pq1 (pq1.length - 1)

/-- Go's `heap.Pop(h)`.  On an empty queue Go computes `n = -1`, the guarded
`Swap` and the `down` loop are then no-ops and `pq.Pop` returns `nil`; that
case is written directly.  Otherwise swap the root to the back, sift the new
root down and detach the last element. -/
def heapPop (pq : PriorityQueue) : Option Item × PriorityQueue :=
  if pq.length = 0 then (none, pq)
  else
    let n := pq.length - 1
    let pq1 := pqSwap pq 0 n
    let pq2 := down pq1 0 n
    pqPop pq2

/-! The max-heap invariant and its preservation by `heapPush` / `heapPop`. -/
/-- Priority stored at position `k` (defaulting outside the queue). -/
def prio (pq : PriorityQueue) (k : Nat) : Int :=
  pq[k]!.priority

/-- The max-heap invariant in parent form: every non-root position holds a
priority at most its parent's. -/
def IsHeap (pq : PriorityQueue) : Prop :=
  ∀ k, k < pq.length → 0 < k → prio pq k ≤ prio pq ((k - 1) / 2)

instance (pq : PriorityQueue) : Decidable (IsHeap pq) := by
  unfold IsHeap
  infer_instance

/-- Queue `pq` is a heap except possibly at position `j`, whose children are
nevertheless bounded by `j`'s parent (the sift-up invariant). -/
def HeapExceptUp (pq : PriorityQueue) (j : Nat) : Prop :=
  (∀ k, k < pq.length → 0 < k → k ≠ j → prio pq k ≤ prio pq ((k - 1) / 2)) ∧
  (∀ k, k < pq.length → 0 < k → (k - 1) / 2 = j → 0 < j →
    prio pq k ≤ prio pq ((j - 1) / 2))

/-- The heap invariant restricted to positions below `n`. -/
def HeapOn (pq : PriorityQueue) (n : Nat) : Prop :=
  ∀ k, k < n → 0 < k → prio pq k ≤ prio pq ((k - 1) / 2)

/-- The sift-down invariant at position `i` within bound `n`: a heap on
`[0, n)` except for the edges from `i` to its children, whose priorities are
still bounded by `i`'s parent. -/
def HeapExceptDown (pq : PriorityQueue) (i n : Nat) : Prop :=
  (∀ k, k < n → 0 < k → (k - 1) / 2 ≠ i → prio pq k ≤ prio pq ((k - 1) / 2)) ∧
  (0 < i → ∀ k, k < n → (k - 1) / 2 = i → prio pq k ≤ prio pq ((i - 1) / 2))

/-- One operation on the queue: `heap.Push` of an item or `heap.Pop`. -/
inductive HeapOp where
  | push (x : Item)
  | pop
deriving DecidableEq, Repr

/-- Run a sequence of heap operations from a starting queue. -/
def applyOps : List HeapOp → PriorityQueue → PriorityQueue
  | [], pq => pq
  | HeapOp.push x :: rest, pq => applyOps rest (heapPush pq x)
  | HeapOp.pop :: rest, pq => applyOps rest (heapPop pq).2

end Commonutil

namespace Smserver

open Commonutil

/-- The event type constants of server/smserver/eq.go.  The source's
`eventType` is an `int`; only the five declared constants can be produced by
a successful decode in this embedding (on any other constant the source
`push` panics). -/
inductive EventType where
  | tShardChanged
  | tShardLoadChanged
  | tContainerChanged
  | tContainerLoadChanged
  | tContainerInit
deriving DecidableEq, Repr

/-- Source `mvEvent`: the JSON payload carried by a queue item. -/
structure MvEvent where
  service : String
  type : EventType
  enqueueTime : Int
  value : String
deriving DecidableEq, Repr

/-- Mutex operations emitted by the embedded critical sections. -/
inductive LockOp where
  | lock
  | unlock
deriving DecidableEq, Repr

/-- The `eventQueue` state touched by `push` and `tryPopAndPush`: the delay
heap `pq`, the set of services with a created channel (and started `evLoop`),
the trace of events sent on per-service channels, and the
duplicate-suppression set `serviceBlk`. -/
structure EqState where
  pq : PriorityQueue
  serviceEvChan : List String
  chanSends : List (String × MvEvent)
  serviceBlk : List String
deriving DecidableEq, Repr

/-- Go map insert, with set semantics on the keys. -/
def insertService (s : String) (l : List String) : List String :=
  if l.contains s then l else l ++ [s]

/-- Source `eventQueue.push(item, checkDup)` (eq.go lines 103-149).  JSON decoding
of `item.Value` is abstracted by `decode`; `none` models an unmarshal
failure.  `time.Now().Unix()` is passed as `now`.  The second component is
the trace of operations on `eq.mu`: the function locks on entry and the
deferred unlock runs once on every exit path. -/
def push (decode : String → Option MvEvent) (now : Int) (st : EqState)
    (item : Item) (checkDup : Bool) : EqState × List LockOp :=
  match decode item.value with
  | none => (st, [LockOp.lock, LockOp.unlock])
  | some ev =>
    if checkDup && st.serviceBlk.contains ev.service then
      (st, [LockOp.lock, LockOp.unlock])
    else
      let st1 := if checkDup then
        { st with serviceBlk := insertService ev.service st.serviceBlk } else st
      let st2 := if st1.serviceEvChan.contains ev.service then st1
        else { st1 with serviceEvChan := st1.serviceEvChan ++ [ev.service] }
      match ev.type with
      | EventType.tShardChanged | EventType.tContainerChanged
      | EventType.tContainerInit =>
        ({ st2 with chanSends := st2.chanSends ++ [(ev.service, ev)] },
          [LockOp.lock, LockOp.unlock])
      | EventType.tShardLoadChanged | EventType.tContainerLoadChanged =>
        if now ≥ item.priority then
          ({ st2 with chanSends := st2.chanSends ++ [(ev.service, ev)] },
            [LockOp.lock, LockOp.unlock])
        else
          ({ st2 with pq := heapPush st2.pq item },
            [LockOp.lock, LockOp.unlock])

/-- The body of `tryPopAndPush` (eq.go lines 151-168) with an iteration
bound; the bound never runs out because every recursive step removes one
item from the heap and promotes it (`push` cannot re-heap an item that is
already due, see `push_pq_of_due`); `tryPopAndPush_eq` below restates the
source's `goto popASAP` recurrence without the bound. -/
def tryPopAndPushAux (decode : String → Option MvEvent) (now : Int) :
    Nat → EqState → EqState
  | 0, st => st
  | fuel + 1, st =>
    match heapPop st.pq with
    | (none, pq1) => { st with pq := pq1 }
    | (some item, pq1) =>
      if now < item.priority then { st with pq := heapPush pq1 item }
      else
        tryPopAndPushAux decode now fuel
          ((push decode now { st with pq := pq1 } item false).1)

/-- Source `eventQueue.tryPopAndPush` (eq.go lines 151-168). -/
def tryPopAndPush (decode : String → Option MvEvent) (now : Int)
    (st : EqState) : EqState :=
  tryPopAndPushAux decode now (st.pq.length + 1) st

/-! `evLoop` (eq.go lines 170-205): the per-service consumer. -/
/-- A compare-and-swap attempt recorded by the embedded `evLoop`. -/
structure CasAttempt where
  key : String
  oldValue : String
  newValue : String
deriving DecidableEq, Repr

/-- Outcome of the store `CompareAndSwap` call, as distinguished by the
source's error handling. -/
inductive CasOutcome where
  | ok
  | errValueNotMatch
  | errOther
deriving DecidableEq, Repr

/-- Modelled from the spec: `apputil.EtcdPathAppShardTask` (the `apputil`
package is not in the given sources) returns the store task key
`task/<service>` of a service (spec section 6). -/
def taskPath (service : String) : String :=
  "task/" ++ service

/-- Result of one `evLoop` iteration: the CAS attempts made on the store and
the suppression set after the iteration. -/
structure EvLoopResult where
  casAttempts : List CasAttempt
  blkAfter : List String
deriving DecidableEq, Repr

/-- One iteration of `eventQueue.evLoop` (eq.go lines 170-205) for a received
event `ev`: compute `key := EtcdPathAppShardTask(eq.parent.service)` — note
the PARENT container's service, not the event's — and attempt exactly one
CAS from the empty string to `ev.Value`; on either error outcome only log;
in every case finally delete `ev.Service` from the suppression set. -/
def evLoopStep (parentService : String) (blk : List String) (ev : MvEvent)
    (outcome : CasOutcome) : EvLoopResult :=
  let attempts := [CasAttempt.mk (taskPath parentService) "" ev.value]
  match outcome with
  | CasOutcome.ok =>
    { casAttempts := attempts, blkAfter := blk.erase ev.service }
  | CasOutcome.errValueNotMatch =>
    { casAttempts := attempts, blkAfter := blk.erase ev.service }
  | CasOutcome.errOther =>
    { casAttempts := attempts, blkAfter := blk.erase ev.service }

/-! The move executor `operator` (src/unnamed/part_000, package smserver). -/
/-- A `moveAction` consumed by the move executor.  The shard spec payload
(`Spec *apputil.ShardSpec`) is carried opaquely: it is only marshalled into
the HTTP body, which the embedding abstracts. -/
structure MoveAction where
  service : String
  shardId : String
  dropEndpoint : String
  addEndpoint : String
  allowDrop : Bool
  spec : String
deriving DecidableEq, Repr

/-- Source `operator.dropOrAdd`: a drop then an add over HTTP, either may be absent
(empty endpoint); a failing add is swallowed and logged when `AllowDrop` is
set.  `sendFails e a` abstracts `operator.send`: `true` means the HTTP POST
to endpoint `e` for action `a` fails (transport error or non-200). -/
def dropOrAdd (sendFails : String → String → Bool) (ma : MoveAction) :
    Option String :=
  if ma.dropEndpoint ≠ "" && sendFails ma.dropEndpoint "drop" then
    some "drop failed"
  else if ma.addEndpoint ≠ "" && sendFails ma.addEndpoint "add" then
    if ma.allowDrop then none else some "add failed"
  else none

/-- Aggregate outcome of one round of the bounded fan-out
(`errgroup.Group.Wait`): an error iff some action's `dropOrAdd` failed. -/
def roundFails (sendFails : Nat → String → String → Bool) (round : Nat)
    (mal : List MoveAction) : Bool :=
  mal.any (fun ma => (dropOrAdd (sendFails round) ma).isSome)

/-- The retry loop of `operator.move` (`for counter <= retry`): each
iteration runs one full round of actions; a failed round bumps the counter,
a successful one breaks.  Returns whether it eventually succeeded together
with the number of rounds executed. -/
def moveLoop (sendFails : Nat → String → String → Bool)
    (mal : List MoveAction) (retry : Nat) (counter : Nat) : Bool × Nat :=
  if counter ≤ retry then
    if roundFails sendFails counter mal then
      let r := moveLoop sendFails mal retry (counter + 1)
      (r.1, r.2 + 1)
    else (true, 1)
  else (false, 0)
termination_by retry + 1 - counter
decreasing_by
  omega

/-- Source `operator.move` (part_000 lines 94-141).  `malOpt` is the result of
`json.Unmarshal` of the payload: `none` models an unmarshal failure, on
which the wrapped error is returned at once and no HTTP round runs.  In
every other case the retry loop (retry = 1) runs and the function returns
`nil` after logging the final outcome, successful or not.  The second
component counts the executed rounds. -/
def move (malOpt : Option (List MoveAction))
    (sendFails : Nat → String → String → Bool) : Option String × Nat :=
  match malOpt with
  | none => (some "unmarshal error", 0)
  | some mal =>
    let r := moveLoop sendFails mal 1 0
    (none, r.2)

end Smserver

namespace ServerPkg

open Commonutil

/-- The event type constants of the `package server` event queue
(src/unnamed/part_000 lines 219-381). -/
inductive SEventType where
  | evTypeShardUpdate
  | evTypeShardDel
  | evTypeContainerUpdate
  | evTypeContainerDel
deriving DecidableEq, Repr

/-- Source `loadEvent`: the JSON payload carried by a queue item. -/
structure LoadEvent where
  service : String
  type : SEventType
  enqueueTime : Int
  load : String
deriving DecidableEq, Repr

/-- The `package server` `eventQueue` state touched by `push`. -/
structure SEqState where
  pq : PriorityQueue
  evChan : List String
  chanSends : List (String × LoadEvent)
  curEvList : List String
deriving DecidableEq, Repr

/-- Go map insert, with set semantics on the keys. -/
def insertService (s : String) (l : List String) : List String :=
  if l.contains s then l else l ++ [s]

/-- The `package server` variant of `eventQueue.push` (part_000 lines
282-322).  Same control flow as the smserver variant, except that on the
duplicate-check early return the source executes `eq.mu.Unlock()` explicitly
even though the same unlock was already deferred on entry, so that exit path
emits TWO unlocks (a run-time "unlock of unlocked mutex" fault in Go).
An unknown event type falls through the switch silently (no panic case). -/
def push (decode : String → Option LoadEvent) (now : Int) (st : SEqState)
    (item : Item) (checkDup : Bool) : SEqState × List Smserver.LockOp :=
  match decode item.value with
  | none => (st, [Smserver.LockOp.lock, Smserver.LockOp.unlock])
  | some ev =>
    if checkDup && st.curEvList.contains ev.service then
      (st, [Smserver.LockOp.lock, Smserver.LockOp.unlock, Smserver.LockOp.unlock])
    else
      let st1 := if checkDup then
        { st with curEvList := insertService ev.service st.curEvList } else st
      let st2 := if st1.evChan.contains ev.service then st1
        else { st1 with evChan := st1.evChan ++ [ev.service] }
      match ev.type with
      | SEventType.evTypeShardUpdate | SEventType.evTypeContainerUpdate =>
        ({ st2 with chanSends := st2.chanSends ++ [(ev.service, ev)] },
          [Smserver.LockOp.lock, Smserver.LockOp.unlock])
      | SEventType.evTypeShardDel | SEventType.evTypeContainerDel =>
        if now ≥ item.priority then
          ({ st2 with chanSends := st2.chanSends ++ [(ev.service, ev)] },
            [Smserver.LockOp.lock, Smserver.LockOp.unlock])
        else
          ({ st2 with pq := heapPush st2.pq item },
            [Smserver.LockOp.lock, Smserver.LockOp.unlock])

end ServerPkg

namespace Storage

/-- Modelled from the spec: `storage.Lease` (the `storage` package is not in
the given sources).  A lease is a 64-bit integer id plus an expire time
(spec section 3). -/
structure Lease where
  id : Int
  expireAt : Int
deriving DecidableEq, Repr

/-- Modelled from the spec: the sentinel `storage.NoLease` with id 0, which
compares unequal to any real lease (spec section 3). -/
def NoLease : Lease :=
  { id := 0, expireAt := 0 }

/-- Modelled from the spec: lease comparison (`EqualTo`) is id equality
(spec sections 3 and 4.4 "by id equality"). -/
def Lease.EqualTo (a b : Lease) : Bool :=
  a.id == b.id

/-- Modelled from the spec: `storage.ShardSpec`
{ id, service, task, lease, update-time } (spec section 3). -/
structure ShardSpec where
  id : String
  service : String
  task : String
  lease : Lease
  updateTime : Int
deriving DecidableEq, Repr

/-- Modelled from the spec: `storage.ShardKeeperDbValue`, one
LocalShardRecord of the durable log: the spec plus the dispatched (`Disp`)
and pending-release (`Drop`) flags (spec section 3). -/
structure DbValue where
  spec : ShardSpec
  disp : Bool
  drop : Bool
deriving DecidableEq, Repr

/-- The container's durable local log, keyed by shard id. -/
abbrev Db := List DbValue

/-- Modelled from the spec: `storage.Add(spec)` inserts a LocalShardRecord
with dispatched=false, drop=false; the log is keyed by shard id, so a
re-Add replaces the record (spec sections 4.4 and 8 round-trip). -/
def storageAdd (spec : ShardSpec) (db : Db) : Db :=
  db.filter (fun dv => dv.spec.id ≠ spec.id) ++
    [{ spec := spec, disp := false, drop := false }]

/-- Modelled from the spec: `storage.Drop(ids)` marks the records with the
given shard ids as pending release (spec sections 3 and 4.4). -/
def storageDrop (ids : List String) (db : Db) : Db :=
  db.map (fun dv =>
    if ids.contains dv.spec.id then { dv with drop := true } else dv)

/-- Modelled from the spec: `storage.MigrateLease(from, to)` rewrites the
lease of every record whose lease id equals `from` to the id `to`
(spec section 4.4). -/
def migrateLease (fromId toId : Int) (db : Db) : Db :=
  db.map (fun dv =>
    if dv.spec.lease.id == fromId then
      { dv with spec :=
          { dv.spec with lease := { dv.spec.lease with id := toId } } }
    else dv)

/-- Modelled from the spec: `storage.DropByLease(except, leaseId)` marks as
pending release every record whose lease id equals `leaseId` when `except`
is false, resp. every record whose lease id differs from `leaseId` when
`except` is true (spec section 4.4). -/
def dropByLease (except : Bool) (leaseId : Int) (db : Db) : Db :=
  db.map (fun dv =>
    if except then
      if dv.spec.lease.id != leaseId then { dv with drop := true } else dv
    else
      if dv.spec.lease.id == leaseId then { dv with drop := true } else dv)

/-- Modelled from the spec: `storage.Remove(id)` removes the record with the
given shard id (spec sections 1 and 4.4; assumed atomic and, like the other
local-store operations here, never failing). -/
def storageRemove (id : String) (db : Db) : Db :=
  db.filter (fun dv => dv.spec.id ≠ id)

/-- Modelled from the spec: `storage.Put(id, dv)` stores the record under
the shard id, replacing an existing record (spec section 1). -/
def storagePut (id : String) (v : DbValue) (db : Db) : Db :=
  if db.any (fun dv => dv.spec.id == id) then
    db.map (fun dv => if dv.spec.id == id then v else dv)
  else db ++ [v]

end Storage

namespace Core

open Storage

/-- Source `ShardLease` (shardkeeper.go lines 39-50): the value at the bridge/guard
keys — the embedded `storage.Lease` plus the guard resp. bridge lease ids of
the round and the `Assignment` (the shard ids to drop this round). -/
structure ShardLease where
  lease : Lease
  guardLeaseID : Int
  bridgeLeaseID : Int
  drops : List String
deriving DecidableEq, Repr

/-- Modelled from the spec: `etcdutil.LeaseSessionPath` is the store key
`lease/session/<service>/<container-id>` (spec section 6). -/
def leaseSessionPath (service containerId : String) : String :=
  "lease/session/" ++ service ++ "/" ++ containerId

/-- The `ShardKeeper` state the embedded operations touch: the two in-memory
leases, the `initialized` flag, the durable log, and the trace of session
keys successfully written to the store (path and attached lease id). -/
structure SkState where
  bridgeLease : Lease
  guardLease : Lease
  initialized : Bool
  db : Db
  sessionPuts : List (String × Int)
deriving DecidableEq, Repr

/-- Return paths of `acquireGuardLease`, in source order. -/
inductive GuardResult where
  | ok
  | errCreate
  | errNoBridge
  | errBridgeMismatch
  | errMigrate
  | errDrop
deriving DecidableEq, Repr

/-- Source `ShardKeeper.acquireGuardLease` (shardkeeper.go lines 358-426).
`isCreate` and `lease` come from the watch event; `migrateOk`, `dropOk` and
`putOk` abstract the outcomes of `storage.MigrateLease`,
`storage.DropByLease` and the store `Put` of the session key (`false` = the
call returns an error; a failing storage call is modelled as leaving the log
unchanged).  The source registers `defer { bridgeLease = NoLease }` only
AFTER the bridge-id mismatch check, so the two earlier error returns leave
`bridgeLease` untouched; the session-key `Put` error is only logged and the
function still returns nil. -/
def acquireGuardLease (service containerId : String) (st : SkState)
    (isCreate : Bool) (lease : ShardLease) (migrateOk dropOk putOk : Bool) :
    SkState × GuardResult :=
  if isCreate then (st, GuardResult.errCreate)
  else if st.bridgeLease.EqualTo NoLease then (st, GuardResult.errNoBridge)
  else if 0 < lease.bridgeLeaseID && st.bridgeLease.id != lease.bridgeLeaseID then
    (st, GuardResult.errBridgeMismatch)
  else
    -- from here on the deferred clear of bridgeLease runs on every exit
    let st1 := { st with guardLease := lease.lease }
    if !migrateOk then
      ({ st1 with bridgeLease := NoLease }, GuardResult.errMigrate)
    else
      let st2 := { st1 with db := migrateLease st.bridgeLease.id lease.lease.id st1.db }
      if !dropOk then
        ({ st2 with bridgeLease := NoLease }, GuardResult.errDrop)
      else
        let st3 := { st2 with db := dropByLease true lease.lease.id st2.db }
        let st4 :=
          if putOk then
            { st3 with sessionPuts := st3.sessionPuts ++
                [(leaseSessionPath service containerId, lease.lease.id)] }
          else st3
        ({ st4 with bridgeLease := NoLease }, GuardResult.ok)

/-- Source `ShardKeeper.Add(id, spec)` (shardkeeper.go lines 428-441): reject with
error "lease mismatch" unless the spec's lease equals (by id) the in-memory
guard lease; otherwise hand the spec to `storage.Add`.  The second component
lists the specs handed to `storage.Add`. -/
def skAdd (_id : String) (guardLease : Lease) (spec : ShardSpec) (db : Db) :
    Except String Db × List ShardSpec :=
  if !spec.lease.EqualTo guardLease then
    (Except.error "lease mismatch", [])
  else
    (Except.ok (storageAdd spec db), [spec])

/-! The Sync Loop tick `ShardKeeper.sync` (shardkeeper.go lines 448-543). -/
/-- Outcomes of the application callbacks `AppShardImpl.Drop` / `.Add`, as
distinguished by the source (`nil`, `commonutil.ErrNotExist`,
`commonutil.ErrExist`, anything else). -/
inductive AppRes where
  | ok
  | errNotExist
  | errExist
  | errOther
deriving DecidableEq, Repr

/-- The application callbacks, as functions of the shard id. -/
structure SyncEnv where
  appDrop : String → AppRes
  appAdd : String → AppRes

/-- The two accumulators of `sync`: shard ids scheduled for removal and the
records scheduled for a durable update (a Go map keyed by shard id; the log
is keyed by shard id, so within one tick each id is appended at most once). -/
structure SyncAcc where
  dropShardIDs : List String
  updateDbValues : List (String × DbValue)
deriving DecidableEq, Repr

/-- Helper `dropFn` inside `sync`: ask the application to drop; on
`err == nil || err == commonutil.ErrNotExist` schedule removal, otherwise
log and let the tick continue. -/
def dropFn (env : SyncEnv) (acc : SyncAcc) (dv : DbValue) : SyncAcc :=
  if env.appDrop dv.spec.id = AppRes.ok ∨
      env.appDrop dv.spec.id = AppRes.errNotExist then
    { acc with dropShardIDs := acc.dropShardIDs ++ [dv.spec.id] }
  else acc

/-- Helper `addFn` inside `sync`: ask the application to add; on
`err == nil || err == commonutil.ErrExist` mark dispatched and schedule the
durable update, otherwise log and let the tick continue. -/
def addFn (env : SyncEnv) (acc : SyncAcc) (dv : DbValue) : SyncAcc :=
  if env.appAdd dv.spec.id = AppRes.ok ∨
      env.appAdd dv.spec.id = AppRes.errExist then
    { acc with updateDbValues :=
        acc.updateDbValues ++ [(dv.spec.id, { dv with disp := true })] }
  else acc

/-- The `ForEach` body of `sync`, in source order: a record whose lease is
neither the guard nor the bridge lease is dropped; else an already
dispatched record is skipped once initialized; else a drop-flagged record is
dropped; else it is added. -/
def syncVisit (env : SyncEnv) (guard bridge : Lease) (initialized : Bool)
    (acc : SyncAcc) (dv : DbValue) : SyncAcc :=
  if !dv.spec.lease.EqualTo guard && !dv.spec.lease.EqualTo bridge then
    dropFn env acc dv
  else if dv.disp && initialized then acc
  else if dv.drop then dropFn env acc dv
  else addFn env acc dv

/-- Whether `sync` asks the application to drop this record (i.e. reaches a
`dropFn` call on it): its lease matches neither in-memory lease, or it is
drop-flagged and not skipped as already dispatched. -/
def syncAsksDrop (guard bridge : Lease) (initialized : Bool)
    (dv : DbValue) : Bool :=
  if !dv.spec.lease.EqualTo guard && !dv.spec.lease.EqualTo bridge then true
  else if dv.disp && initialized then false
  else dv.drop

/-- Source `ShardKeeper.sync` (shardkeeper.go lines 448-543), one full tick: scan
every record (the spec fixes that the scan never aborts the tick: per-shard
errors are logged and retried next tick), then remove the scheduled ids,
persist the scheduled updates with `Disp = true`, and finally set
`initialized`. -/
def sync (env : SyncEnv) (st : SkState) : SkState :=
  let acc := st.db.foldl
    (syncVisit env st.guardLease st.bridgeLease st.initialized)
    { dropShardIDs := [], updateDbValues := [] }
  let db1 := acc.dropShardIDs.foldl (fun d id => storageRemove id d) st.db
  let db2 := acc.updateDbValues.foldl
    (fun d p => storagePut p.1 { p.2 with disp := true } d) db1
  { st with db := db2, initialized := true }

/-- The lease of a record matches the guard or the bridge lease. -/
def LeaseMatches (g b : Lease) (dv : DbValue) : Prop :=
  dv.spec.lease.EqualTo g = true ∨ dv.spec.lease.EqualTo b = true

end Core


/-! # Claims

Each claim of the specification is settled by exactly one theorem below;
concrete inputs for witnesses and counterexamples are defined first.
-/
/-- Shard-keeper state for the C1 counterexample: mid-round, in-memory
bridge lease id 5. -/
def c1State : Core.SkState :=
  { bridgeLease := { id := 5, expireAt := 0 },
    guardLease := { id := 3, expireAt := 0 },
    initialized := true, db := [], sessionPuts := [] }

/-- Guard value for the C1 counterexample: names BridgeLeaseID 7 ≠ 5. -/
def c1Lease : Core.ShardLease :=
  { lease := { id := 9, expireAt := 0 },
    guardLeaseID := 0, bridgeLeaseID := 7, drops := [] }

/-- Witness state for C1's amended theorem: the deferred clear runs. -/
def c1WState : Core.SkState :=
  { bridgeLease := { id := 5, expireAt := 0 },
    guardLease := { id := 3, expireAt := 0 },
    initialized := true, db := [], sessionPuts := [] }

/-- Witness guard value for C1: BridgeLeaseID matches the bridge id 5. -/
def c1WLease : Core.ShardLease :=
  { lease := { id := 9, expireAt := 0 },
    guardLeaseID := 0, bridgeLeaseID := 5, drops := [] }

/-- Witness environment for C2: the application accepts every add and drop. -/
def c2Env : Core.SyncEnv :=
  { appDrop := fun _ => Core.AppRes.ok, appAdd := fun _ => Core.AppRes.ok }

/-- Witness state for C2: one record under the guard lease, one stale. -/
def c2State : Core.SkState :=
  { bridgeLease := { id := 0, expireAt := 0 },
    guardLease := { id := 4, expireAt := 0 },
    initialized := false,
    db := [{ spec := { id := "s1", service := "svc", task := "", lease := { id := 4, expireAt := 0 }, updateTime := 0 },
             disp := false, drop := false },
           { spec := { id := "s2", service := "svc", task := "", lease := { id := 9, expireAt := 0 }, updateTime := 0 },
             disp := false, drop := false }],
    sessionPuts := [] }

/-- Event for the C3 counterexample: its service differs from the parent
container's. -/
def c3Event : Smserver.MvEvent :=
  { service := "app", type := Smserver.EventType.tShardChanged,
    enqueueTime := 0, value := "payload" }

/-- Decoder for the C4 failing input: two deferrable load events. -/
def c4Decode : String → Option Smserver.MvEvent :=
  fun s =>
    if s = "lateEvent" then
      some { service := "svcA", type := Smserver.EventType.tShardLoadChanged,
             enqueueTime := 0, value := "lateEvent" }
    else if s = "dueEvent" then
      some { service := "svcB", type := Smserver.EventType.tShardLoadChanged,
             enqueueTime := 0, value := "dueEvent" }
    else none

/-- Queue state for the C4 failing input: a valid max-heap holding a
far-future item (priority 110) above an already-eligible one (priority 95);
the wall clock is 100. -/
def c4State : Smserver.EqState :=
  { pq := [{ value := "lateEvent", priority := 110, index := 0 },
           { value := "dueEvent", priority := 95, index := 1 }],
    serviceEvChan := [], chanSends := [], serviceBlk := [] }

/-- Witness guard lease for C6. -/
def c6Guard : Storage.Lease := { id := 4, expireAt := 0 }

/-- Witness spec for C6 holding the guard lease. -/
def c6SpecGood : Storage.ShardSpec :=
  { id := "s1", service := "svc", task := "",
    lease := { id := 4, expireAt := 7 }, updateTime := 0 }

/-- Witness spec for C6 holding a stale lease. -/
def c6SpecBad : Storage.ShardSpec :=
  { id := "s1", service := "svc", task := "",
    lease := { id := 5, expireAt := 7 }, updateTime := 0 }

/-- Decoder for C7's failing input (`package server` variant). -/
def c7DecodeS : String → Option ServerPkg.LoadEvent :=
  fun _ => some { service := "svc", type := ServerPkg.SEventType.evTypeShardUpdate,
                  enqueueTime := 0, load := "" }

/-- The `package server` queue state for C7: "svc" already suppressed. -/
def c7StateS : ServerPkg.SEqState :=
  { pq := [], evChan := [], chanSends := [], curEvList := ["svc"] }

/-- The pushed item for C7. -/
def c7Item : Commonutil.Item := { value := "x", priority := 0, index := 0 }

/-- Decoder for C7's smserver comparison input. -/
def c7DecodeM : String → Option Smserver.MvEvent :=
  fun _ => some { service := "svc", type := Smserver.EventType.tShardChanged,
                  enqueueTime := 0, value := "" }

/-- smserver queue state for C7: "svc" already suppressed. -/
def c7StateM : Smserver.EqState :=
  { pq := [], serviceEvChan := [], chanSends := [], serviceBlk := ["svc"] }

/-- Witness queue for C8: a two-element max-heap. -/
def c8Queue : Commonutil.PriorityQueue :=
  [{ value := "a", priority := 7, index := 0 },
   { value := "b", priority := 3, index := 1 }]

/-- Witness operation sequence for C9. -/
def c9Ops : List Commonutil.HeapOp :=
  [Commonutil.HeapOp.push { value := "a", priority := 2, index := 0 },
   Commonutil.HeapOp.push { value := "b", priority := 9, index := 0 },
   Commonutil.HeapOp.push { value := "c", priority := 5, index := 0 },
   Commonutil.HeapOp.pop]

/-- Witness state for C10. -/
def c10State : Core.SkState :=
  { bridgeLease := { id := 5, expireAt := 0 },
    guardLease := { id := 3, expireAt := 0 },
    initialized := true,
    db := [{ spec := { id := "s1", service := "svc", task := "",
                       lease := { id := 5, expireAt := 0 }, updateTime := 0 },
             disp := true, drop := false }],
    sessionPuts := [] }

/-- Witness guard value for C10: BridgeLeaseID matches. -/
def c10Lease : Core.ShardLease :=
  { lease := { id := 9, expireAt := 0 },
    guardLeaseID := 0, bridgeLeaseID := 5, drops := [] }

/-! ## Theorems -/

namespace Commonutil

/-! Loop equations: the iteration bounds are invisible. -/
theorem upAux_congr (j : Nat) :
    ∀ (pq : PriorityQueue) (f1 f2 : Nat), j < f1 → j < f2 →
      upAux pq f1 j = upAux pq f2 j := by
  induction j using Nat.strong_induction_on with
  | _ j ih =>
    intro pq f1 f2 h1 h2
    match f1, f2 with
    | a + 1, b + 1 =>
      show (if _ then pq else _) = (if _ then pq else _)
      by_cases hc : (j - 1) / 2 = j ∨ ¬ less pq j ((j - 1) / 2)
      · rw [if_pos hc, if_pos hc]
      · rw [if_neg hc, if_neg hc]
        have hj0 : 0 < j := by
          rcases Nat.eq_zero_or_pos j with h0 | h0
          · exact absurd (Or.inl (by simp [h0])) hc
          · exact h0
        exact ih ((j - 1) / 2) (by omega) _ a b (by omega) (by omega)

theorem up_eq (pq : PriorityQueue) (j : Nat) :
    up pq j =
      if (j - 1) / 2 = j ∨ ¬ less pq j ((j - 1) / 2) then pq
      else up (pqSwap pq ((j - 1) / 2) j) ((j - 1) / 2) := by
  show (if _ then pq else _) = _
  by_cases hc : (j - 1) / 2 = j ∨ ¬ less pq j ((j - 1) / 2)
  · rw [if_pos hc, if_pos hc]
  · rw [if_neg hc, if_neg hc]
    have hj0 : 0 < j := by
      rcases Nat.eq_zero_or_pos j with h0 | h0
      · exact absurd (Or.inl (by simp [h0])) hc
      · exact h0
    exact upAux_congr ((j - 1) / 2) _ j ((j - 1) / 2 + 1) (by omega) (by omega)

theorem downAux_stop {pq : PriorityQueue} {i n : Nat} (h : 2 * i + 1 ≥ n) :
    ∀ fuel, downAux pq n fuel i = pq := by
  intro fuel
  match fuel with
  | 0 => rfl
  | fuel + 1 => simp [downAux, h]

theorem lt_pickChild (pq : PriorityQueue) (i n : Nat) :
    i < pickChild pq i n ∧ pickChild pq i n ≤ 2 * i + 2 := by
  unfold pickChild
  split <;> omega

theorem downAux_congr (k : Nat) :
    ∀ (pq : PriorityQueue) (i n f1 f2 : Nat), n - i ≤ k →
      n - i ≤ f1 → n - i ≤ f2 → downAux pq n f1 i = downAux pq n f2 i := by
  induction k using Nat.strong_induction_on with
  | _ k ih =>
    intro pq i n f1 f2 hk h1 h2
    by_cases hstop : 2 * i + 1 ≥ n
    · rw [downAux_stop hstop, downAux_stop hstop]
    · have hpc := lt_pickChild pq i n
      have hni : 2 ≤ n - i := by omega
      obtain ⟨a, rfl⟩ : ∃ a, f1 = a + 1 := ⟨f1 - 1, by omega⟩
      obtain ⟨b, rfl⟩ : ∃ b, f2 = b + 1 := ⟨f2 - 1, by omega⟩
      show (if _ then pq else _) = (if _ then pq else _)
      rw [if_neg hstop, if_neg hstop]
      by_cases h2 : ¬ less pq (pickChild pq i n) i
      · rw [if_pos h2, if_pos h2]
      · rw [if_neg h2, if_neg h2]
        have hpcn : pickChild pq i n < n := by
          unfold pickChild
          split <;> omega
        exact ih (k - 1) (by omega) _ (pickChild pq i n) n a b
          (by omega) (by omega) (by omega)

theorem down_eq (pq : PriorityQueue) (i n : Nat) :
    down pq i n =
      if 2 * i + 1 ≥ n then pq
      else if ¬ less pq (pickChild pq i n) i then pq
      else down (pqSwap pq i (pickChild pq i n)) (pickChild pq i n) n := by
  by_cases hstop : 2 * i + 1 ≥ n
  · rw [if_pos hstop]
    exact downAux_stop hstop _
  · have hpc := lt_pickChild pq i n
    have hpcn : pickChild pq i n < n := by
      unfold pickChild
      split <;> omega
    have hni : 2 ≤ n - i := by omega
    rw [if_neg hstop]
    show downAux pq n (n - i) i = _
    match hf : n - i, hni with
    | m + 2, _ =>
      show (if _ then pq else _) = _
      rw [if_neg hstop]
      by_cases h2 : ¬ less pq (pickChild pq i n) i
      · rw [if_pos h2, if_pos h2]
      · rw [if_neg h2, if_neg h2]
        exact downAux_congr (m + 1) _ (pickChild pq i n) n (m + 1)
          (n - pickChild pq i n) (by omega) (by omega) (by omega)

theorem length_pqSwap (pq : PriorityQueue) (i j : Nat) :
    (pqSwap pq i j).length = pq.length := by
  unfold pqSwap
  split
  · rfl
  · simp [List.length_set]

theorem priority_setIndex (it : Item) (n : Int) :
    (setIndex it n).priority = it.priority := rfl

theorem getBang_set_ne (l : List Item) (i k : Nat) (a : Item) (hik : i ≠ k) :
    (l.set i a)[k]! = l[k]! := by
  by_cases hk : k < l.length
  · rw [getElem!_pos (l.set i a) k (by simpa using hk), getElem!_pos l k hk]
    exact List.getElem_set_ne hik (by simpa using hk)
  · rw [getElem!_neg (l.set i a) k (by simpa using hk), getElem!_neg l k hk]

theorem getBang_set_self (l : List Item) (i : Nat) (a : Item) (hi : i < l.length) :
    (l.set i a)[i]! = a := by
  rw [getElem!_pos (l.set i a) i (by simpa using hi)]
  exact List.getElem_set_self (by simpa using hi)

theorem getElem_pqSwap_other (pq : PriorityQueue) {i j : Nat} (k : Nat)
    (hki : k ≠ i) (hkj : k ≠ j) : (pqSwap pq i j)[k]! = pq[k]! := by
  unfold pqSwap
  split
  · rfl
  · show ((pq.set i (setIndex pq[j]! i)).set j (setIndex pq[i]! j))[k]! = pq[k]!
    rw [getBang_set_ne _ j k _ (fun h => hkj h.symm),
      getBang_set_ne pq i k _ (fun h => hki h.symm)]

theorem prio_pqSwap_other (pq : PriorityQueue) {i j : Nat} (k : Nat)
    (hki : k ≠ i) (hkj : k ≠ j) : prio (pqSwap pq i j) k = prio pq k :=
  congrArg Item.priority (getElem_pqSwap_other pq k hki hkj)

theorem prio_pqSwap_fst (pq : PriorityQueue) {i j : Nat}
    (hi : i < pq.length) (hj : j < pq.length) :
    prio (pqSwap pq i j) i = prio pq j := by
  unfold pqSwap
  split
  · have hij : i = 0 ∧ j = 0 := by omega
    rw [hij.1, hij.2]
  · show ((pq.set i (setIndex pq[j]! i)).set j (setIndex pq[i]! j))[i]!.priority = _
    by_cases hji : j = i
    · rw [hji, getBang_set_self _ i _ (by simpa using hi), priority_setIndex]
      rfl
    · rw [getBang_set_ne _ j i _ hji, getBang_set_self pq i _ hi, priority_setIndex]
      rfl

theorem prio_pqSwap_snd (pq : PriorityQueue) {i j : Nat}
    (hi : i < pq.length) (hj : j < pq.length) :
    prio (pqSwap pq i j) j = prio pq i := by
  unfold pqSwap
  split
  · have hij : i = 0 ∧ j = 0 := by omega
    rw [hij.1, hij.2]
  · show ((pq.set i (setIndex pq[j]! i)).set j (setIndex pq[i]! j))[j]!.priority = _
    rw [getBang_set_self _ j _ (by simpa using hj), priority_setIndex]
    rfl

theorem less_iff {pq : PriorityQueue} {i j : Nat} :
    less pq i j = true ↔ prio pq j < prio pq i := by
  simp [less, prio]

theorem length_up (j : Nat) :
    ∀ pq : PriorityQueue, (up pq j).length = pq.length := by
  induction j using Nat.strong_induction_on with
  | _ j ih =>
    intro pq
    rw [up_eq]
    by_cases hc : (j - 1) / 2 = j ∨ ¬ less pq j ((j - 1) / 2)
    · rw [if_pos hc]
    · rw [if_neg hc]
      have hj0 : 0 < j := by
        rcases Nat.eq_zero_or_pos j with h0 | h0
        · exact absurd (Or.inl (by simp [h0])) hc
        · exact h0
      rw [ih ((j - 1) / 2) (by omega), length_pqSwap]

theorem length_down (d : Nat) :
    ∀ (pq : PriorityQueue) (i n : Nat), n - i ≤ d →
      (down pq i n).length = pq.length := by
  induction d using Nat.strong_induction_on with
  | _ d ih =>
    intro pq i n hd
    rw [down_eq]
    by_cases h1 : 2 * i + 1 ≥ n
    · rw [if_pos h1]
    · rw [if_neg h1]
      have hpc := lt_pickChild pq i n
      by_cases h2 : ¬ less pq (pickChild pq i n) i
      · rw [if_pos h2]
      · rw [if_neg h2]
        have hpcn : pickChild pq i n < n := by
          unfold pickChild
          split <;> omega
        rw [ih (d - 1) (by omega) _ (pickChild pq i n) n (by omega),
          length_pqSwap]

theorem up_heap (j : Nat) :
    ∀ pq : PriorityQueue, j < pq.length → HeapExceptUp pq j →
      IsHeap (up pq j) := by
  induction j using Nat.strong_induction_on with
  | _ j ih =>
    intro pq hj hinv
    rw [up_eq]
    by_cases hc : (j - 1) / 2 = j ∨ ¬ less pq j ((j - 1) / 2)
    · rw [if_pos hc]
      intro k hk hk0
      by_cases hkj : k = j
      · rcases hc with h0 | hle
        · omega
        · have hx : ¬ prio pq ((j - 1) / 2) < prio pq j :=
            fun hp => hle (less_iff.mpr hp)
          rw [hkj]
          omega
      · exact hinv.1 k hk hk0 hkj
    · rw [if_neg hc]
      push_neg at hc
      obtain ⟨hne, hlt⟩ := hc
      have hgt : prio pq ((j - 1) / 2) < prio pq j := less_iff.mp (by simpa using hlt)
      have hj0 : 0 < j := by omega
      have hij : (j - 1) / 2 < j := by omega
      have hilen : (j - 1) / 2 < pq.length := by omega
      have e1 : prio (pqSwap pq ((j - 1) / 2) j) ((j - 1) / 2) = prio pq j :=
        prio_pqSwap_fst pq hilen hj
      have e2 : prio (pqSwap pq ((j - 1) / 2) j) j = prio pq ((j - 1) / 2) :=
        prio_pqSwap_snd pq hilen hj
      apply ih ((j - 1) / 2) hij
      · rw [length_pqSwap]
        omega
      · constructor
        · intro k hk hk0 hki
          rw [length_pqSwap] at hk
          by_cases hkj : k = j
          · have ek : prio (pqSwap pq ((j - 1) / 2) j) k = prio pq ((j - 1) / 2) := by
              rw [hkj]
              exact e2
            have ep : prio (pqSwap pq ((j - 1) / 2) j) ((k - 1) / 2) = prio pq j := by
              rw [hkj]
              exact e1
            rw [ek, ep]
            omega
          · have ek : prio (pqSwap pq ((j - 1) / 2) j) k = prio pq k :=
              prio_pqSwap_other pq k hki hkj
            by_cases hpj : (k - 1) / 2 = j
            · have ep : prio (pqSwap pq ((j - 1) / 2) j) ((k - 1) / 2) = prio pq ((j - 1) / 2) := by
                rw [hpj]
                exact e2
              rw [ek, ep]
              exact hinv.2 k hk hk0 hpj hj0
            · by_cases hpi : (k - 1) / 2 = (j - 1) / 2
              · have ep : prio (pqSwap pq ((j - 1) / 2) j) ((k - 1) / 2) = prio pq j := by
                  rw [hpi]
                  exact e1
                have h1 := hinv.1 k hk hk0 hkj
                rw [hpi] at h1
                rw [ek, ep]
                omega
              · have ep : prio (pqSwap pq ((j - 1) / 2) j) ((k - 1) / 2) = prio pq ((k - 1) / 2) :=
                  prio_pqSwap_other pq ((k - 1) / 2) hpi hpj
                rw [ek, ep]
                exact hinv.1 k hk hk0 hkj
        · intro k hk hk0 hpk hi0
          rw [length_pqSwap] at hk
          have hq1 : ((j - 1) / 2 - 1) / 2 ≠ (j - 1) / 2 := by omega
          have hq2 : ((j - 1) / 2 - 1) / 2 ≠ j := by omega
          have eq0 : prio (pqSwap pq ((j - 1) / 2) j) (((j - 1) / 2 - 1) / 2) =
              prio pq (((j - 1) / 2 - 1) / 2) :=
            prio_pqSwap_other pq (((j - 1) / 2 - 1) / 2) hq1 hq2
          have hparent := hinv.1 ((j - 1) / 2) hilen hi0 (by omega)
          by_cases hkj : k = j
          · have ek : prio (pqSwap pq ((j - 1) / 2) j) k = prio pq ((j - 1) / 2) := by
              rw [hkj]
              exact e2
            rw [ek, eq0]
            exact hparent
          · have hki : k ≠ (j - 1) / 2 := by omega
            have ek : prio (pqSwap pq ((j - 1) / 2) j) k = prio pq k :=
              prio_pqSwap_other pq k hki hkj
            have h1 := hinv.1 k hk hk0 hkj
            rw [hpk] at h1
            rw [ek, eq0]
            omega

theorem pqPush_length (pq : PriorityQueue) (x : Item) :
    (pqPush pq x).length = pq.length + 1 := by
  simp [pqPush]

theorem prio_pqPush_lt (pq : PriorityQueue) (x : Item) (k : Nat)
    (hk : k < pq.length) : prio (pqPush pq x) k = prio pq k := by
  show (pq ++ [setIndex x pq.length])[k]!.priority = pq[k]!.priority
  rw [getElem!_pos (pq ++ [setIndex x pq.length]) k (by simp; omega),
    getElem!_pos pq k hk, List.getElem_append_left]

theorem heapPush_isHeap (pq : PriorityQueue) (x : Item) (hh : IsHeap pq) :
    IsHeap (heapPush pq x) := by
  show IsHeap (up (pqPush pq x) ((pqPush pq x).length - 1))
  rw [pqPush_length, Nat.add_sub_cancel]
  apply up_heap pq.length (pqPush pq x) (by rw [pqPush_length]; omega)
  constructor
  · intro k hk hk0 hkj
    rw [pqPush_length] at hk
    have hk' : k < pq.length := by omega
    rw [prio_pqPush_lt pq x k hk', prio_pqPush_lt pq x ((k - 1) / 2) (by omega)]
    exact hh k hk' hk0
  · intro k hk hk0 hpk hj0
    rw [pqPush_length] at hk
    omega

theorem pickChild_cases (pq : PriorityQueue) (i n : Nat) :
    pickChild pq i n = 2 * i + 1 ∨ pickChild pq i n = 2 * i + 2 := by
  unfold pickChild
  split
  · right
    rfl
  · left
    rfl

theorem pickChild_max (pq : PriorityQueue) (i n : Nat) (k : Nat)
    (hk : k < n) (hck : k = 2 * i + 1 ∨ k = 2 * i + 2) :
    prio pq k ≤ prio pq (pickChild pq i n) := by
  unfold pickChild
  by_cases hcc : 2 * i + 2 < n ∧ less pq (2 * i + 2) (2 * i + 1)
  · rw [if_pos hcc]
    have h2 := less_iff.mp hcc.2
    rcases hck with rfl | rfl
    · omega
    · omega
  · rw [if_neg hcc]
    rcases hck with rfl | rfl
    · omega
    · have h2n : 2 * i + 2 < n := hk
      have hnl : ¬ less pq (2 * i + 2) (2 * i + 1) = true := fun hl => hcc ⟨h2n, hl⟩
      have h2 : ¬ prio pq (2 * i + 1) < prio pq (2 * i + 2) :=
        fun hp => hnl (less_iff.mpr hp)
      omega

theorem down_heapOn (d : Nat) :
    ∀ (pq : PriorityQueue) (i n : Nat), n - i ≤ d → n ≤ pq.length →
      HeapExceptDown pq i n → HeapOn (down pq i n) n := by
  induction d using Nat.strong_induction_on with
  | _ d ih =>
    intro pq i n hd hn hinv
    rw [down_eq]
    by_cases h1 : 2 * i + 1 ≥ n
    · rw [if_pos h1]
      intro k hk hk0
      by_cases hpi : (k - 1) / 2 = i
      · omega
      · exact hinv.1 k hk hk0 hpi
    · rw [if_neg h1]
      have hpc := lt_pickChild pq i n
      have hpcn : pickChild pq i n < n := by
        unfold pickChild
        split <;> omega
      have hpcc := pickChild_cases pq i n
      have hpj : (pickChild pq i n - 1) / 2 = i := by omega
      by_cases h2 : ¬ less pq (pickChild pq i n) i
      · rw [if_pos h2]
        intro k hk hk0
        by_cases hpi : (k - 1) / 2 = i
        · have hkc : k = 2 * i + 1 ∨ k = 2 * i + 2 := by omega
          have hle := pickChild_max pq i n k hk hkc
          have hni : ¬ prio pq i < prio pq (pickChild pq i n) :=
            fun hp => (by simpa using h2 : ¬ less pq (pickChild pq i n) i = true)
              (less_iff.mpr hp)
          rw [hpi]
          omega
        · exact hinv.1 k hk hk0 hpi
      · rw [if_neg h2]
        have hgt : prio pq i < prio pq (pickChild pq i n) :=
          less_iff.mp (by simpa using h2)
        have hin : i < pq.length := by omega
        have hjn : pickChild pq i n < pq.length := by omega
        have e1 : prio (pqSwap pq i (pickChild pq i n)) i = prio pq (pickChild pq i n) :=
          prio_pqSwap_fst pq hin hjn
        have e2 : prio (pqSwap pq i (pickChild pq i n)) (pickChild pq i n) = prio pq i :=
          prio_pqSwap_snd pq hin hjn
        apply ih (d - 1) (by omega) _ (pickChild pq i n) n (by omega)
          (by rw [length_pqSwap]; omega)
        constructor
        · intro k hk hk0 hpkj
          by_cases hkj : k = pickChild pq i n
          · have ek : prio (pqSwap pq i (pickChild pq i n)) k = prio pq i := by
              rw [hkj]
              exact e2
            have ep : prio (pqSwap pq i (pickChild pq i n)) ((k - 1) / 2) =
                prio pq (pickChild pq i n) := by
              rw [hkj, hpj]
              exact e1
            rw [ek, ep]
            omega
          · by_cases hki : k = i
            · have hi0 : 0 < i := by omega
              have ek : prio (pqSwap pq i (pickChild pq i n)) k =
                  prio pq (pickChild pq i n) := by
                rw [hki]
                exact e1
              have hq1 : (k - 1) / 2 ≠ i := by omega
              have hq2 : (k - 1) / 2 ≠ pickChild pq i n := by omega
              have ep : prio (pqSwap pq i (pickChild pq i n)) ((k - 1) / 2) =
                  prio pq ((k - 1) / 2) :=
                prio_pqSwap_other pq ((k - 1) / 2) hq1 hq2
              have h3 := hinv.2 hi0 (pickChild pq i n) hpcn hpj
              rw [ek, ep, hki]
              exact h3
            · have ek : prio (pqSwap pq i (pickChild pq i n)) k = prio pq k :=
                prio_pqSwap_other pq k hki hkj
              by_cases hpi : (k - 1) / 2 = i
              · have ep : prio (pqSwap pq i (pickChild pq i n)) ((k - 1) / 2) =
                    prio pq (pickChild pq i n) := by
                  rw [hpi]
                  exact e1
                have hmax := pickChild_max pq i n k hk (by omega)
                rw [ek, ep]
                exact hmax
              · have ep : prio (pqSwap pq i (pickChild pq i n)) ((k - 1) / 2) =
                    prio pq ((k - 1) / 2) :=
                  prio_pqSwap_other pq ((k - 1) / 2) hpi hpkj
                rw [ek, ep]
                exact hinv.1 k hk hk0 hpi
        · intro hj0 k hk hpk
          have hki : k ≠ i := by omega
          have hkj : k ≠ pickChild pq i n := by omega
          have ek : prio (pqSwap pq i (pickChild pq i n)) k = prio pq k :=
            prio_pqSwap_other pq k hki hkj
          have ep : prio (pqSwap pq i (pickChild pq i n)) ((pickChild pq i n - 1) / 2) =
              prio pq (pickChild pq i n) := by
            rw [hpj]
            exact e1
          have h1 := hinv.1 k hk (by omega) (by omega)
          rw [hpk] at h1
          rw [ek, ep]
          exact h1

theorem prio_take (pq : PriorityQueue) (n k : Nat) (hk : k < n)
    (hkl : k < pq.length) : prio (pq.take n) k = prio pq k := by
  show (pq.take n)[k]!.priority = pq[k]!.priority
  rw [getElem!_pos (pq.take n) k (by simp [List.length_take]; omega),
    getElem!_pos pq k hkl, List.getElem_take]

theorem heapPop_empty (pq : PriorityQueue) (h0 : pq.length = 0) :
    heapPop pq = (none, pq) := by
  unfold heapPop
  rw [if_pos h0]

theorem heapPop_eq (pq : PriorityQueue) (hne : ¬ pq.length = 0) :
    heapPop pq =
      (some (setIndex
              (down (pqSwap pq 0 (pq.length - 1)) 0 (pq.length - 1))[pq.length - 1]! (-1)),
       (down (pqSwap pq 0 (pq.length - 1)) 0 (pq.length - 1)).take (pq.length - 1)) := by
  have hlen2 : (down (pqSwap pq 0 (pq.length - 1)) 0 (pq.length - 1)).length = pq.length := by
    rw [length_down (pq.length - 1) _ 0 (pq.length - 1) (by omega), length_pqSwap]
  unfold heapPop
  rw [if_neg hne]
  show pqPop (down (pqSwap pq 0 (pq.length - 1)) 0 (pq.length - 1)) = _
  unfold pqPop
  rw [if_neg (by omega), hlen2]

theorem heapPop_isHeap (pq : PriorityQueue) (hh : IsHeap pq) :
    IsHeap ((heapPop pq).2) := by
  by_cases h0 : pq.length = 0
  · rw [heapPop_empty pq h0]
    exact hh
  · rw [heapPop_eq pq h0]
    have hlen1 : (pqSwap pq 0 (pq.length - 1)).length = pq.length :=
      length_pqSwap pq 0 (pq.length - 1)
    have hlen2 : (down (pqSwap pq 0 (pq.length - 1)) 0 (pq.length - 1)).length
        = pq.length := by
      rw [length_down (pq.length - 1) _ 0 (pq.length - 1) (by omega), hlen1]
    have hhd : HeapOn (down (pqSwap pq 0 (pq.length - 1)) 0 (pq.length - 1))
        (pq.length - 1) := by
      apply down_heapOn (pq.length - 1) _ 0 (pq.length - 1) (by omega) (by omega)
      constructor
      · intro k hk hk0 hp0
        rw [prio_pqSwap_other pq k (by omega) (by omega),
          prio_pqSwap_other pq ((k - 1) / 2) hp0 (by omega)]
        exact hh k (by omega) hk0
      · intro h00
        omega
    intro k hk hk0
    rw [List.length_take, hlen2] at hk
    have hkn : k < pq.length - 1 := by omega
    rw [prio_take _ _ k hkn (by omega), prio_take _ _ ((k - 1) / 2) (by omega) (by omega)]
    exact hhd k hkn hk0

theorem prio_root_max (pq : PriorityQueue) (hh : IsHeap pq) :
    ∀ k, k < pq.length → prio pq k ≤ prio pq 0 := by
  intro k
  induction k using Nat.strong_induction_on with
  | _ k ih =>
    intro hk
    rcases Nat.eq_zero_or_pos k with h0 | h0
    · rw [h0]
    · have h1 := hh k hk h0
      have h2 := ih ((k - 1) / 2) (by omega) (by omega)
      omega

theorem getElem_down_hi (d : Nat) :
    ∀ (pq : PriorityQueue) (i n k : Nat), n - i ≤ d → n ≤ k →
      (down pq i n)[k]! = pq[k]! := by
  induction d using Nat.strong_induction_on with
  | _ d ih =>
    intro pq i n k hd hk
    rw [down_eq]
    by_cases h1 : 2 * i + 1 ≥ n
    · rw [if_pos h1]
    · rw [if_neg h1]
      have hpcn : pickChild pq i n < n := by
        unfold pickChild
        split <;> omega
      by_cases h2 : ¬ less pq (pickChild pq i n) i
      · rw [if_pos h2]
      · rw [if_neg h2]
        have hpc := lt_pickChild pq i n
        rw [ih (d - 1) (by omega) _ (pickChild pq i n) n k (by omega) hk]
        exact getElem_pqSwap_other pq k (by omega) (by omega)

theorem heapPop_max (pq : PriorityQueue) (hh : IsHeap pq) (hne : pq.length ≠ 0) :
    ∃ it rest, heapPop pq = (some it, rest) ∧ ∀ x ∈ pq, x.priority ≤ it.priority := by
  have hroot : (down (pqSwap pq 0 (pq.length - 1)) 0 (pq.length - 1))[pq.length - 1]!.priority
      = prio pq 0 := by
    rw [getElem_down_hi (pq.length - 1) _ 0 (pq.length - 1) (pq.length - 1) (by omega) (by omega)]
    rcases Nat.eq_zero_or_pos (pq.length - 1) with hn0 | hn0
    · rw [hn0]
      show prio (pqSwap pq 0 0) 0 = prio pq 0
      rw [prio_pqSwap_fst pq (by omega) (by omega)]
    · show prio (pqSwap pq 0 (pq.length - 1)) (pq.length - 1) = prio pq 0
      rw [prio_pqSwap_snd pq (by omega) (by omega)]
  refine ⟨_, _, heapPop_eq pq hne, ?_⟩
  intro x hx
  obtain ⟨k, hk, hkx⟩ := List.mem_iff_getElem.mp hx
  have hxk : x.priority = prio pq k := by
    show _ = pq[k]!.priority
    rw [getElem!_pos pq k hk, hkx]
  rw [hxk]
  show _ ≤ (setIndex _ _).priority
  unfold setIndex
  simp only
  rw [hroot]
  exact prio_root_max pq hh k hk

theorem applyOps_isHeap (ops : List HeapOp) :
    ∀ pq : PriorityQueue, IsHeap pq → IsHeap (applyOps ops pq) := by
  induction ops with
  | nil => exact fun pq h => h
  | cons op rest ih =>
    intro pq hh
    cases op with
    | push x => exact ih _ (heapPush_isHeap pq x hh)
    | pop => exact ih _ (heapPop_isHeap pq hh)

theorem isHeap_nil : IsHeap ([] : PriorityQueue) := by
  intro k hk
  simp at hk

end Commonutil

namespace Smserver

open Commonutil

theorem push_pq_of_due (decode : String → Option MvEvent) (now : Int)
    (st : EqState) (item : Item) (h : ¬ now < item.priority) :
    ((push decode now st item false).1).pq = st.pq := by
  unfold push
  cases hdec : decode item.value with
  | none => rfl
  | some ev =>
    simp only [Bool.false_and, Bool.false_eq_true, if_false, if_neg]
    cases ev.type <;>
      (simp [show now ≥ item.priority by omega]; try (split <;> rfl))

theorem tryPopAndPushAux_congr (decode : String → Option MvEvent) (now : Int)
    (k : Nat) :
    ∀ (st : EqState) (f1 f2 : Nat), st.pq.length ≤ k →
      st.pq.length < f1 → st.pq.length < f2 →
      tryPopAndPushAux decode now f1 st = tryPopAndPushAux decode now f2 st := by
  induction k using Nat.strong_induction_on with
  | _ k ih =>
    intro st f1 f2 hk h1 h2
    obtain ⟨a, rfl⟩ : ∃ a, f1 = a + 1 := ⟨f1 - 1, by omega⟩
    obtain ⟨b, rfl⟩ : ∃ b, f2 = b + 1 := ⟨f2 - 1, by omega⟩
    show (match heapPop st.pq with
      | (none, pq1) => { st with pq := pq1 }
      | (some item, pq1) =>
        if now < item.priority then { st with pq := heapPush pq1 item }
        else tryPopAndPushAux decode now a
          ((push decode now { st with pq := pq1 } item false).1)) =
      (match heapPop st.pq with
      | (none, pq1) => { st with pq := pq1 }
      | (some item, pq1) =>
        if now < item.priority then { st with pq := heapPush pq1 item }
        else tryPopAndPushAux decode now b
          ((push decode now { st with pq := pq1 } item false).1))
    by_cases h0 : st.pq.length = 0
    · rw [Commonutil.heapPop_empty st.pq h0]
    · rw [Commonutil.heapPop_eq st.pq h0]
      simp only
      by_cases hdue : now <
          (setIndex (Commonutil.down (Commonutil.pqSwap st.pq 0 (st.pq.length - 1)) 0
            (st.pq.length - 1))[st.pq.length - 1]! (-1)).priority
      · rw [if_pos hdue, if_pos hdue]
      · rw [if_neg hdue, if_neg hdue]
        have hlen2 : (Commonutil.down (Commonutil.pqSwap st.pq 0 (st.pq.length - 1)) 0
            (st.pq.length - 1)).length = st.pq.length := by
          rw [Commonutil.length_down (st.pq.length - 1) _ 0 (st.pq.length - 1) (by omega),
            Commonutil.length_pqSwap]
        have hpq := push_pq_of_due decode now
          { st with pq := (Commonutil.down (Commonutil.pqSwap st.pq 0 (st.pq.length - 1)) 0
              (st.pq.length - 1)).take (st.pq.length - 1) }
          (setIndex (Commonutil.down (Commonutil.pqSwap st.pq 0 (st.pq.length - 1)) 0
              (st.pq.length - 1))[st.pq.length - 1]! (-1)) hdue
        apply ih (k - 1) (by omega)
        · rw [hpq]
          simp only [List.length_take]
          omega
        · rw [hpq]
          simp only [List.length_take]
          omega
        · rw [hpq]
          simp only [List.length_take]
          omega

theorem tryPopAndPush_eq (decode : String → Option MvEvent) (now : Int)
    (st : EqState) :
    tryPopAndPush decode now st =
      match heapPop st.pq with
      | (none, pq1) => { st with pq := pq1 }
      | (some item, pq1) =>
        if now < item.priority then { st with pq := heapPush pq1 item }
        else tryPopAndPush decode now
          ((push decode now { st with pq := pq1 } item false).1) := by
  show tryPopAndPushAux decode now (st.pq.length + 1) st = _
  by_cases h0 : st.pq.length = 0
  · show (match heapPop st.pq with
      | (none, pq1) => { st with pq := pq1 }
      | (some item, pq1) =>
        if now < item.priority then { st with pq := heapPush pq1 item }
        else tryPopAndPushAux decode now st.pq.length
          ((push decode now { st with pq := pq1 } item false).1)) = _
    rw [Commonutil.heapPop_empty st.pq h0]
  · show (match heapPop st.pq with
      | (none, pq1) => { st with pq := pq1 }
      | (some item, pq1) =>
        if now < item.priority then { st with pq := heapPush pq1 item }
        else tryPopAndPushAux decode now st.pq.length
          ((push decode now { st with pq := pq1 } item false).1)) = _
    rw [Commonutil.heapPop_eq st.pq h0]
    simp only
    by_cases hdue : now <
        (setIndex (Commonutil.down (Commonutil.pqSwap st.pq 0 (st.pq.length - 1)) 0
          (st.pq.length - 1))[st.pq.length - 1]! (-1)).priority
    · rw [if_pos hdue, if_pos hdue]
    · rw [if_neg hdue, if_neg hdue]
      have hpq := push_pq_of_due decode now
        { st with pq := (Commonutil.down (Commonutil.pqSwap st.pq 0 (st.pq.length - 1)) 0
            (st.pq.length - 1)).take (st.pq.length - 1) }
        (setIndex (Commonutil.down (Commonutil.pqSwap st.pq 0 (st.pq.length - 1)) 0
            (st.pq.length - 1))[st.pq.length - 1]! (-1)) hdue
      have hlen2 : (Commonutil.down (Commonutil.pqSwap st.pq 0 (st.pq.length - 1)) 0
          (st.pq.length - 1)).length = st.pq.length := by
        rw [Commonutil.length_down (st.pq.length - 1) _ 0 (st.pq.length - 1) (by omega),
          Commonutil.length_pqSwap]
      apply tryPopAndPushAux_congr decode now st.pq.length
      · rw [hpq]
        simp only [List.length_take]
        omega
      · rw [hpq]
        simp only [List.length_take]
        omega
      · rw [hpq]
        simp only [List.length_take]
        omega

end Smserver

namespace Core

open Storage

/-! Lemmas about one Sync Loop tick, towards the lease-consistency claim. -/
theorem dropFn_updates (env : SyncEnv) (acc : SyncAcc) (dv : DbValue) :
    (dropFn env acc dv).updateDbValues = acc.updateDbValues := by
  unfold dropFn
  split <;> rfl

theorem addFn_drops (env : SyncEnv) (acc : SyncAcc) (dv : DbValue) :
    (addFn env acc dv).dropShardIDs = acc.dropShardIDs := by
  unfold addFn
  split <;> rfl

theorem dropFn_drops_mono (env : SyncEnv) (acc : SyncAcc) (dv : DbValue)
    (x : String) (hx : x ∈ acc.dropShardIDs) :
    x ∈ (dropFn env acc dv).dropShardIDs := by
  unfold dropFn
  split
  · simp [hx]
  · exact hx

theorem syncVisit_drops_mono (env : SyncEnv) (g b : Lease) (init : Bool)
    (acc : SyncAcc) (dv : DbValue) (x : String) (hx : x ∈ acc.dropShardIDs) :
    x ∈ (syncVisit env g b init acc dv).dropShardIDs := by
  unfold syncVisit
  split
  · exact dropFn_drops_mono env acc dv x hx
  · split
    · exact hx
    · split
      · exact dropFn_drops_mono env acc dv x hx
      · rw [addFn_drops]
        exact hx

theorem foldl_visit_drops_mono (env : SyncEnv) (g b : Lease) (init : Bool) :
    ∀ (l : List DbValue) (acc : SyncAcc) (x : String), x ∈ acc.dropShardIDs →
      x ∈ (l.foldl (syncVisit env g b init) acc).dropShardIDs := by
  intro l
  induction l with
  | nil => exact fun acc x hx => hx
  | cons h t ih =>
    intro acc x hx
    exact ih _ x (syncVisit_drops_mono env g b init acc h x hx)

theorem dropFn_adds (env : SyncEnv) (acc : SyncAcc) (dv : DbValue)
    (hok : env.appDrop dv.spec.id = AppRes.ok ∨
      env.appDrop dv.spec.id = AppRes.errNotExist) :
    dv.spec.id ∈ (dropFn env acc dv).dropShardIDs := by
  unfold dropFn
  rw [if_pos hok]
  simp

theorem foldl_visit_drops_complete (env : SyncEnv) (g b : Lease) (init : Bool) :
    ∀ (l : List DbValue) (acc : SyncAcc),
      (∀ dv ∈ l, syncAsksDrop g b init dv = true →
        env.appDrop dv.spec.id = AppRes.ok ∨
          env.appDrop dv.spec.id = AppRes.errNotExist) →
      ∀ dv ∈ l, (!dv.spec.lease.EqualTo g && !dv.spec.lease.EqualTo b) = true →
        dv.spec.id ∈ (l.foldl (syncVisit env g b init) acc).dropShardIDs := by
  intro l
  induction l with
  | nil =>
    intro acc _ dv hdv
    simp at hdv
  | cons h t ih =>
    intro acc hhyp dv hdv hmis
    rcases List.mem_cons.mp hdv with heq | hmem
    · subst heq
      have hask : syncAsksDrop g b init dv = true := by
        unfold syncAsksDrop
        rw [if_pos hmis]
      have hok := hhyp dv (List.mem_cons_self dv t) hask
      have hstep : dv.spec.id ∈ (syncVisit env g b init acc dv).dropShardIDs := by
        unfold syncVisit
        rw [if_pos hmis]
        exact dropFn_adds env acc dv hok
      exact foldl_visit_drops_mono env g b init t _ _ hstep
    · exact ih _ (fun dv2 hm2 => hhyp dv2 (List.mem_cons_of_mem _ hm2)) dv hmem hmis

theorem not_mismatch (g b : Lease) (dv : DbValue)
    (h : ¬ (!dv.spec.lease.EqualTo g && !dv.spec.lease.EqualTo b) = true) :
    LeaseMatches g b dv := by
  cases hg : dv.spec.lease.EqualTo g
  · cases hb : dv.spec.lease.EqualTo b
    · exact absurd (by rw [hg, hb]; rfl) h
    · exact Or.inr hb
  · exact Or.inl hg

theorem foldl_visit_updates (env : SyncEnv) (g b : Lease) (init : Bool) :
    ∀ (l : List DbValue) (acc : SyncAcc),
      (∀ p ∈ acc.updateDbValues, LeaseMatches g b p.2) →
      ∀ p ∈ (l.foldl (syncVisit env g b init) acc).updateDbValues,
        LeaseMatches g b p.2 := by
  intro l
  induction l with
  | nil => exact fun acc hacc => hacc
  | cons h t ih =>
    intro acc hacc
    apply ih
    intro p hp
    unfold syncVisit at hp
    by_cases hmis : (!h.spec.lease.EqualTo g && !h.spec.lease.EqualTo b) = true
    · rw [if_pos hmis, dropFn_updates] at hp
      exact hacc p hp
    · rw [if_neg hmis] at hp
      by_cases hdisp : (h.disp && init) = true
      · rw [if_pos hdisp] at hp
        exact hacc p hp
      · rw [if_neg hdisp] at hp
        by_cases hdrop : h.drop = true
        · rw [if_pos hdrop, dropFn_updates] at hp
          exact hacc p hp
        · rw [if_neg hdrop] at hp
          have hm : LeaseMatches g b h := not_mismatch g b h hmis
          unfold addFn at hp
          by_cases hadd : env.appAdd h.spec.id = AppRes.ok ∨
              env.appAdd h.spec.id = AppRes.errExist
          · rw [if_pos hadd] at hp
            rcases List.mem_append.mp hp with h1 | h1
            · exact hacc p h1
            · have heq2 : p = (h.spec.id, { h with disp := true }) := by
                simpa using h1
              rw [heq2]
              exact hm
          · rw [if_neg hadd] at hp
            exact hacc p hp

theorem mem_storagePut (id : String) (v : DbValue) (db : Db) (dv : DbValue)
    (h : dv ∈ storagePut id v db) : dv ∈ db ∨ dv = v := by
  unfold storagePut at h
  split at h
  · obtain ⟨dv0, hdv0, heq⟩ := List.mem_map.mp h
    by_cases hid : (dv0.spec.id == id) = true
    · rw [if_pos hid] at heq
      exact Or.inr heq.symm
    · rw [if_neg hid] at heq
      exact Or.inl (heq ▸ hdv0)
  · rcases List.mem_append.mp h with h1 | h1
    · exact Or.inl h1
    · exact Or.inr (by simpa using h1)

theorem mem_putFold :
    ∀ (ups : List (String × DbValue)) (db : Db) (dv : DbValue),
      dv ∈ ups.foldl (fun d p => storagePut p.1 { p.2 with disp := true } d) db →
      dv ∈ db ∨ ∃ p ∈ ups, dv = { p.2 with disp := true } := by
  intro ups
  induction ups with
  | nil => exact fun db dv h => Or.inl h
  | cons p t ih =>
    intro db dv h
    rcases ih _ dv h with h1 | h1
    · rcases mem_storagePut p.1 { p.2 with disp := true } db dv h1 with h2 | h2
      · exact Or.inl h2
      · exact Or.inr ⟨p, List.mem_cons_self p t, h2⟩
    · obtain ⟨q, hq, he⟩ := h1
      exact Or.inr ⟨q, List.mem_cons_of_mem _ hq, he⟩

theorem mem_removeFold :
    ∀ (ids : List String) (db : Db) (dv : DbValue),
      dv ∈ ids.foldl (fun d id => storageRemove id d) db →
      dv ∈ db ∧ ∀ id ∈ ids, dv.spec.id ≠ id := by
  intro ids
  induction ids with
  | nil =>
    intro db dv h
    exact ⟨h, by simp⟩
  | cons id t ih =>
    intro db dv h
    obtain ⟨h1, h2⟩ := ih _ dv h
    obtain ⟨h3, h4⟩ := List.mem_filter.mp h1
    refine ⟨h3, ?_⟩
    intro id2 hid2
    rcases List.mem_cons.mp hid2 with heq | hm
    · rw [heq]
      simpa using h4
    · exact h2 id2 hm

end Core


/-- C1 (counterexample): a non-create guard event whose `BridgeLeaseID`
(7) disagrees with the in-memory bridge lease (5) is rejected on the return
path REGISTERED BEFORE the deferred clear, so `acquireGuardLease` exits with
the in-memory `bridgeLease` still equal to the old bridge lease and not
equal to `NoLease` — refuting the claim that every return path of a
non-create call leaves `bridgeLease = NoLease`. -/
theorem C1_counterexample :
    (Core.acquireGuardLease "s" "c" c1State false c1Lease true true true).2
        = Core.GuardResult.errBridgeMismatch ∧
    (Core.acquireGuardLease "s" "c" c1State false c1Lease true true true).1.bridgeLease.EqualTo
        Storage.NoLease = false := by
  decide

/-- C1 (amended): every call to `acquireGuardLease` on a non-create guard
event leaves the in-memory `bridgeLease` equal (by id) to `NoLease` on exit
— on the normal return, on the migrate/drop error returns (the deferred
clear), and on the missing-bridge rejection (where it already equals
`NoLease`) — EXCEPT on the rejection taken when the event's `BridgeLeaseID`
disagrees with the in-memory bridge lease, where `bridgeLease` is left
unchanged (and hence non-`NoLease`). -/
theorem C1_bridge_cleared_except_mismatch (service containerId : String)
    (st : Core.SkState) (lease : Core.ShardLease) (migrateOk dropOk putOk : Bool) :
    ((Core.acquireGuardLease service containerId st false lease migrateOk dropOk putOk).2
        ≠ Core.GuardResult.errBridgeMismatch →
      (Core.acquireGuardLease service containerId st false lease
        migrateOk dropOk putOk).1.bridgeLease.EqualTo Storage.NoLease = true) ∧
    ((Core.acquireGuardLease service containerId st false lease migrateOk dropOk putOk).2
        = Core.GuardResult.errBridgeMismatch →
      (Core.acquireGuardLease service containerId st false lease
        migrateOk dropOk putOk).1.bridgeLease = st.bridgeLease) := by
  by_cases h1 : st.bridgeLease.EqualTo Storage.NoLease = true
  · constructor
    · intro _
      simp [Core.acquireGuardLease, h1]
    · intro hin
      simp [Core.acquireGuardLease, h1] at hin
  · by_cases h2 : (0 < lease.bridgeLeaseID && st.bridgeLease.id != lease.bridgeLeaseID) = true
    · constructor
      · intro hne
        exact absurd (by simp [Core.acquireGuardLease, h1, h2]) hne
      · intro _
        simp [Core.acquireGuardLease, h1, h2]
    · have h1n : ¬ st.bridgeLease.id = 0 := by
        simpa [Storage.Lease.EqualTo, Storage.NoLease] using h1
      constructor
      · intro _
        cases migrateOk <;> cases dropOk <;> cases putOk <;>
          simp [Core.acquireGuardLease, h1n, h2, Storage.Lease.EqualTo, Storage.NoLease]
      · intro hin
        exfalso
        cases migrateOk <;> cases dropOk <;> cases putOk <;>
          simp [Core.acquireGuardLease, h1n, h2, Storage.Lease.EqualTo,
            Storage.NoLease] at hin

/-- Witness for C1's amended theorem at a concrete matching round. -/
theorem C1_bridge_cleared_except_mismatch_witness :
    (Core.acquireGuardLease "s" "c" c1WState false c1WLease true true true).2
        ≠ Core.GuardResult.errBridgeMismatch ∧
    (Core.acquireGuardLease "s" "c" c1WState false c1WLease true true true).1.bridgeLease.EqualTo
        Storage.NoLease = true :=
  ⟨by decide,
   (C1_bridge_cleared_except_mismatch "s" "c" c1WState c1WLease true true true).1 (by decide)⟩

/-- C2: after one completed Sync Loop tick, if the application `Drop`
callback returned success or not-found for every shard the tick asked it to
drop, then every record surviving in the local durable log has a lease equal
(by id) to the current guard lease or to the current bridge lease. -/
theorem C2_sync_lease_consistency (env : Core.SyncEnv) (st : Core.SkState)
    (hdrop : ∀ dv ∈ st.db,
      Core.syncAsksDrop st.guardLease st.bridgeLease st.initialized dv = true →
      env.appDrop dv.spec.id = Core.AppRes.ok ∨
        env.appDrop dv.spec.id = Core.AppRes.errNotExist) :
    ∀ dv ∈ (Core.sync env st).db,
      dv.spec.lease.EqualTo (Core.sync env st).guardLease = true ∨
        dv.spec.lease.EqualTo (Core.sync env st).bridgeLease = true := by
  intro dv hdv
  have hdv2 : dv ∈
      ((st.db.foldl (Core.syncVisit env st.guardLease st.bridgeLease st.initialized)
          { dropShardIDs := [], updateDbValues := [] }).updateDbValues).foldl
        (fun d p => Storage.storagePut p.1 { p.2 with disp := true } d)
        ((st.db.foldl (Core.syncVisit env st.guardLease st.bridgeLease st.initialized)
            { dropShardIDs := [], updateDbValues := [] }).dropShardIDs.foldl
          (fun d id => Storage.storageRemove id d) st.db) := hdv
  rcases Core.mem_putFold _ _ dv hdv2 with h1 | h1
  · obtain ⟨h2, h3⟩ := Core.mem_removeFold _ _ dv h1
    by_cases hmis : (!dv.spec.lease.EqualTo st.guardLease &&
        !dv.spec.lease.EqualTo st.bridgeLease) = true
    · exfalso
      have h4 := Core.foldl_visit_drops_complete env st.guardLease st.bridgeLease
        st.initialized st.db { dropShardIDs := [], updateDbValues := [] } hdrop dv h2 hmis
      exact h3 dv.spec.id h4 rfl
    · exact Core.not_mismatch st.guardLease st.bridgeLease dv hmis
  · obtain ⟨p, hp, he⟩ := h1
    have h5 := Core.foldl_visit_updates env st.guardLease st.bridgeLease st.initialized
      st.db { dropShardIDs := [], updateDbValues := [] }
      (by intro q hq; simp at hq) p hp
    rw [he]
    exact h5

/-- Witness for C2 at a concrete tick. -/
theorem C2_sync_lease_consistency_witness :
    (∀ dv ∈ c2State.db,
      Core.syncAsksDrop c2State.guardLease c2State.bridgeLease c2State.initialized dv = true →
      c2Env.appDrop dv.spec.id = Core.AppRes.ok ∨
        c2Env.appDrop dv.spec.id = Core.AppRes.errNotExist) ∧
    (∀ dv ∈ (Core.sync c2Env c2State).db,
      dv.spec.lease.EqualTo (Core.sync c2Env c2State).guardLease = true ∨
        dv.spec.lease.EqualTo (Core.sync c2Env c2State).bridgeLease = true) :=
  ⟨by decide, C2_sync_lease_consistency c2Env c2State (by decide)⟩

/-- C3 (counterexample): `evLoop` running in a container whose service is
"sm" consumes an event for service "app"; it attempts exactly one CAS, but
on `task("sm")` — the parent's task key — not on `task("app")`, the task key
of the event's service, refuting the claim as stated. -/
theorem C3_counterexample :
    (Smserver.evLoopStep "sm" ["app"] c3Event Smserver.CasOutcome.ok).casAttempts.length = 1 ∧
    ((Smserver.evLoopStep "sm" ["app"] c3Event
        Smserver.CasOutcome.ok).casAttempts.all
      (fun a => a.key == Smserver.taskPath c3Event.service)) = false := by
  decide

/-- C3 (amended): for every event consumed by `evLoop`, exactly one
compare-and-swap is attempted, from the empty string to the event's value,
on the task key of the event queue's PARENT container's service (which is
the event's task key only when the two services coincide), and after the
attempt — whatever its outcome — the event's service is removed from the
duplicate-suppression set. -/
theorem C3_evloop_cas (parentService : String) (blk : List String)
    (ev : Smserver.MvEvent) (outcome : Smserver.CasOutcome) :
    (Smserver.evLoopStep parentService blk ev outcome).casAttempts =
      [{ key := Smserver.taskPath parentService, oldValue := "", newValue := ev.value }] ∧
    (Smserver.evLoopStep parentService blk ev outcome).blkAfter = blk.erase ev.service := by
  cases outcome <;> exact ⟨rfl, rfl⟩

/-- C4 (code bug, evaluation at the failing input): at `now = 100` the tick
pops the heap top (priority 110 — the LARGEST priority), sees `110 > now`,
pushes it back and stops; the item with priority 95 ≤ now stays in the queue
and nothing is delivered to any channel — an already-eligible item is left
behind, contradicting the claim (and matching the inversion flagged by the
spec's design notes). -/
theorem C4_eligible_item_left_behind :
    Commonutil.IsHeap c4State.pq ∧
    (Smserver.tryPopAndPush c4Decode 100 c4State).pq.map Commonutil.Item.priority
        = [110, 95] ∧
    (Smserver.tryPopAndPush c4Decode 100 c4State).chanSends = [] ∧
    ¬ (∀ p ∈ (Smserver.tryPopAndPush c4Decode 100 c4State).pq.map
        Commonutil.Item.priority, 100 < p) := by
  decide

/-- C5: `operator.move` returns a non-nil error iff the JSON unmarshal of
the move-list payload fails, in which case no HTTP round is attempted; for
every successfully decoded payload — including when every round of the
bounded retry fails — it returns nil. -/
theorem C5_move_error_iff_unmarshal (mal : List Smserver.MoveAction)
    (sendFails : Nat → String → String → Bool) :
    (Smserver.move (some mal) sendFails).1 = none ∧
    (Smserver.move none sendFails).1.isSome = true ∧
    (Smserver.move none sendFails).2 = 0 :=
  ⟨rfl, rfl, rfl⟩

/-- C6: `ShardKeeper.Add(id, spec)` rejects with error "lease mismatch" and
touches nothing (no `storage.Add` call) when the spec's lease differs (by
id) from the in-memory guard lease, and hands the spec to `storage.Add`
when they are equal. -/
theorem C6_add_lease_gate (id : String) (guardLease : Storage.Lease)
    (spec : Storage.ShardSpec) (db : Storage.Db) :
    (spec.lease.EqualTo guardLease = false →
      Core.skAdd id guardLease spec db = (Except.error "lease mismatch", [])) ∧
    (spec.lease.EqualTo guardLease = true →
      Core.skAdd id guardLease spec db =
        (Except.ok (Storage.storageAdd spec db), [spec])) := by
  constructor
  · intro h
    simp [Core.skAdd, h]
  · intro h
    simp [Core.skAdd, h]

/-- Witness for C6 on both sides of the lease gate. -/
theorem C6_add_lease_gate_witness :
    (c6SpecBad.lease.EqualTo c6Guard = false ∧
      Core.skAdd "s1" c6Guard c6SpecBad [] = (Except.error "lease mismatch", [])) ∧
    (c6SpecGood.lease.EqualTo c6Guard = true ∧
      Core.skAdd "s1" c6Guard c6SpecGood [] =
        (Except.ok (Storage.storageAdd c6SpecGood []), [c6SpecGood])) :=
  ⟨⟨by decide, (C6_add_lease_gate "s1" c6Guard c6SpecBad []).1 (by decide)⟩,
   ⟨by decide, (C6_add_lease_gate "s1" c6Guard c6SpecGood []).2 (by decide)⟩⟩

/-- C7 (code bug, evaluation at the failing input): when the duplicate check
trips (check-dup set, service already suppressed), the `package server`
variant of `eventQueue.push` unlocks its mutex TWICE — the explicit
`eq.mu.Unlock()` before the early return plus the deferred unlock — while
the smserver variant unlocks exactly once on the same path. -/
theorem C7_duplicate_path_unlocks :
    ((ServerPkg.push c7DecodeS 0 c7StateS c7Item true).2.count
        Smserver.LockOp.unlock = 2) ∧
    ((Smserver.push c7DecodeM 0 c7StateM c7Item true).2.count
        Smserver.LockOp.unlock = 1) := by
  decide

/-- C8: on every queue state satisfying the heap invariant (every state
reachable by `heap.Push` / `heap.Pop` — see C9), `heap.Pop` on a non-empty
queue returns an item whose priority is greater than or equal to the
priority of every item in the queue, and `heap.Pop` on an empty queue
returns nil rather than failing. -/
theorem C8_pop_max (pq : Commonutil.PriorityQueue) (hh : Commonutil.IsHeap pq) :
    (pq = [] → Commonutil.heapPop pq = (none, pq)) ∧
    (pq ≠ [] → ∃ it rest, Commonutil.heapPop pq = (some it, rest) ∧
      ∀ x ∈ pq, x.priority ≤ it.priority) := by
  constructor
  · intro h
    exact Commonutil.heapPop_empty pq (by simp [h])
  · intro h
    exact Commonutil.heapPop_max pq hh (fun hl => h (List.eq_nil_of_length_eq_zero hl))

/-- Witness for C8 at a concrete heap. -/
theorem C8_pop_max_witness :
    Commonutil.IsHeap c8Queue ∧
    ((c8Queue = [] → Commonutil.heapPop c8Queue = (none, c8Queue)) ∧
     (c8Queue ≠ [] → ∃ it rest, Commonutil.heapPop c8Queue = (some it, rest) ∧
       ∀ x ∈ c8Queue, x.priority ≤ it.priority)) :=
  ⟨by decide, C8_pop_max c8Queue (by decide)⟩

/-- C9: after any sequence of `heap.Push` / `heap.Pop` operations starting
from the empty queue, the resulting array satisfies the max-heap property:
for every node with a child inside the array, the parent's priority is
greater than or equal to the child's. -/
theorem C9_heap_invariant (ops : List Commonutil.HeapOp) (i j : Nat)
    (hij : j = 2 * i + 1 ∨ j = 2 * i + 2)
    (hj : j < (Commonutil.applyOps ops []).length) :
    (Commonutil.applyOps ops [])[j]!.priority ≤
      (Commonutil.applyOps ops [])[i]!.priority := by
  have hh := Commonutil.applyOps_isHeap ops [] Commonutil.isHeap_nil
  have h1 := hh j hj (by omega)
  have h2 : (j - 1) / 2 = i := by omega
  rw [h2] at h1
  exact h1

/-- Witness for C9 at a concrete operation sequence. -/
theorem C9_heap_invariant_witness :
    ((1 : Nat) = 2 * 0 + 1 ∨ (1 : Nat) = 2 * 0 + 2) ∧
    1 < (Commonutil.applyOps c9Ops []).length ∧
    (Commonutil.applyOps c9Ops [])[1]!.priority ≤
      (Commonutil.applyOps c9Ops [])[0]!.priority :=
  ⟨by decide, by decide, C9_heap_invariant c9Ops 0 1 (by decide) (by decide)⟩

/-- C10: on a non-create guard event inside a matching round (bridge lease
set, ids matching, migrate and drop succeeding), the outcome of the session
key `Put` is irrelevant: when it fails, `acquireGuardLease` still returns
nil with the new guard lease set and the same local log as on a successful
`Put`, and no session key is written to the store. -/
theorem C10_session_put_failure_ignored (service containerId : String)
    (st : Core.SkState) (lease : Core.ShardLease)
    (hbridge : st.bridgeLease.EqualTo Storage.NoLease = false)
    (hmism : (0 < lease.bridgeLeaseID && st.bridgeLease.id != lease.bridgeLeaseID) = false) :
    (Core.acquireGuardLease service containerId st false lease true true false).2
        = Core.GuardResult.ok ∧
    (Core.acquireGuardLease service containerId st false lease true true false).1.guardLease
        = lease.lease ∧
    (Core.acquireGuardLease service containerId st false lease true true false).1.sessionPuts
        = st.sessionPuts ∧
    (Core.acquireGuardLease service containerId st false lease true true false).1.db
        = (Core.acquireGuardLease service containerId st false lease true true true).1.db ∧
    (Core.acquireGuardLease service containerId st false lease true true false).1.bridgeLease
        = (Core.acquireGuardLease service containerId st false lease true true true).1.bridgeLease ∧
    (Core.acquireGuardLease service containerId st false lease true true false).1.guardLease
        = (Core.acquireGuardLease service containerId st false lease true true true).1.guardLease := by
  simp [Core.acquireGuardLease, hbridge, hmism]

/-- Witness for C10 at a concrete round. -/
theorem C10_session_put_failure_ignored_witness :
    c10State.bridgeLease.EqualTo Storage.NoLease = false ∧
    (0 < c10Lease.bridgeLeaseID && c10State.bridgeLease.id != c10Lease.bridgeLeaseID) = false ∧
    (Core.acquireGuardLease "svc" "c1" c10State false c10Lease true true false).2
        = Core.GuardResult.ok ∧
    (Core.acquireGuardLease "svc" "c1" c10State false c10Lease true true false).1.sessionPuts
        = c10State.sessionPuts :=
  ⟨by decide, by decide,
   (C10_session_put_failure_ignored "svc" "c1" c10State c10Lease (by decide) (by decide)).1,
   (C10_session_put_failure_ignored "svc" "c1" c10State c10Lease (by decide) (by decide)).2.2.1⟩

end Borderland
